import Mathlib

/-!
# Verification of the SG-Capital Monte Carlo engine

Shallow embedding of `src/Monte_Carlo_SIM.py` (class `MonteCarloEngine5M`).

Modelling conventions:
* float64 arithmetic is idealised as exact arithmetic: the risk-metric layer,
  which only sorts, indexes, takes means and interpolates, is embedded over `ℚ`
  (fully executable); the simulation layer, which needs `exp` and `sqrt`, is
  embedded over `ℝ`.
* the engine's global random stream (fixed by `np.random.seed(42)` at engine
  construction) is a parameter `stream : ℕ → ℝ`, where `stream k` is the k-th
  standard-normal draw produced after seeding; `np.random.standard_normal`
  fills arrays in C order from consecutive draws of this stream.
* fallible NumPy operations are embedded with `Option`/`Except`:
  `np.mean([])` (NaN) and indexing/percentiles of an empty array (IndexError)
  return `none`; `np.linalg.cholesky` on a non positive-definite matrix
  (`LinAlgError`, the spec's NumericalError) makes the batch return
  `Except.error`.
-/

namespace SGCapital

/-! ## Risk Metrics Engine: `_calculate_metrics` (lines 181-229),
`np.percentile` and the export table (lines 328-340), over exact rationals. -/

/-- `np.mean`: arithmetic mean; the mean of an empty array is NaN (`none`). -/
def npMean (l : List ℚ) : Option ℚ :=
  if l.isEmpty then none else some (l.sum / l.length)

/-- `np.sort`: ascending sort (line 184 `returns_sorted = np.sort(returns)`). -/
def npSort (l : List ℚ) : List ℚ := List.insertionSort (· ≤ ·) l

/-- The order-statistic fields of the metrics dict built by `_calculate_metrics`
(lines 193-209): nearest-rank percentiles, VaR and CVaR.  The remaining fields
of the dict (means, probabilities, moments) are not needed by any claim and
depend on the same inputs. -/
structure MCMetrics where
  percentile_1 : ℚ
  percentile_5 : ℚ
  percentile_25 : ℚ
  percentile_75 : ℚ
  percentile_95 : ℚ
  percentile_99 : ℚ
  VaR_95 : ℚ
  VaR_99 : ℚ
  VaR_999 : ℚ
  CVaR_95 : Option ℚ
  CVaR_99 : Option ℚ
  CVaR_999 : Option ℚ

/-- `_calculate_metrics` (lines 181-229).  It sorts once and indexes the sorted
array at `int(n * p)` (truncation of the nonnegative product, i.e. the floor);
CVaR is the mean of the slice `returns_sorted[:int(n * p)]`.  On an empty
input the indexing raises IndexError, modelled as `none`. -/
def calculate_metrics (returns : List ℚ) : Option MCMetrics :=
  if returns.isEmpty then none else
    let returns_sorted := npSort returns
    let n : ℕ := returns.length
    some
      { percentile_1 := returns_sorted.getD (⌊(n : ℚ) * 0.01⌋).toNat 0
        percentile_5 := returns_sorted.getD (⌊(n : ℚ) * 0.05⌋).toNat 0
        percentile_25 := returns_sorted.getD (⌊(n : ℚ) * 0.25⌋).toNat 0
        percentile_75 := returns_sorted.getD (⌊(n : ℚ) * 0.75⌋).toNat 0
        percentile_95 := returns_sorted.getD (⌊(n : ℚ) * 0.95⌋).toNat 0
        percentile_99 := returns_sorted.getD (⌊(n : ℚ) * 0.99⌋).toNat 0
        VaR_95 := returns_sorted.getD (⌊(n : ℚ) * 0.05⌋).toNat 0
        VaR_99 := returns_sorted.getD (⌊(n : ℚ) * 0.01⌋).toNat 0
        VaR_999 := returns_sorted.getD (⌊(n : ℚ) * 0.001⌋).toNat 0
        CVaR_95 := npMean (returns_sorted.take (⌊(n : ℚ) * 0.05⌋).toNat)
        CVaR_99 := npMean (returns_sorted.take (⌊(n : ℚ) * 0.01⌋).toNat)
        CVaR_999 := npMean (returns_sorted.take (⌊(n : ℚ) * 0.001⌋).toNat) }

/-- `np.percentile(a, q)` with the default linear-interpolation method: with the
array sorted ascending and `h = (n-1)·q/100`, the result is
`a[⌊h⌋] + (h - ⌊h⌋)·(a[⌊h⌋+1] - a[⌊h⌋])` (upper index clipped to `n-1`).
Errors on an empty array (`none`). -/
def npPercentile (a : List ℚ) (q : ℚ) : Option ℚ :=
  if a.isEmpty then none else
    let s := npSort a
    let n : ℕ := a.length
    let h : ℚ := ((n : ℚ) - 1) * q / 100
    let i : ℕ := (⌊h⌋).toNat
    let lo := s.getD i 0
    let hi := s.getD (min (i + 1) (n - 1)) 0
    some (lo + (h - (i : ℚ)) * (hi - lo))

/-- The percentile table built by `export_results` (lines 328-340): for each pct
in `[1, 5, 10, 25, 50, 75, 90, 95, 99]` it recomputes
`np.percentile(results['returns'], pct)` and stores the pair. -/
def export_percentiles (returns : List ℚ) : List (ℚ × Option ℚ) :=
  [1, 5, 10, 25, 50, 75, 90, 95, 99].map fun pct => (pct, npPercentile returns pct)

/-! ## The simulation engine, over `ℝ`. -/

/-- `dt = 1/252` (line 69). -/
noncomputable def dt : ℝ := 1 / 252

/-- `n_steps = int(T * 252)` (line 68): truncation toward zero of the
nonnegative product, i.e. the floor. -/
noncomputable def num_steps (T : ℝ) : ℕ := (⌊T * 252⌋).toNat

/-- The `portfolio_config` dict (lines 365-378) as consumed by
`simulate_portfolio_batch` / `run_5M_simulation`, for `n` assets. -/
structure PortfolioConfig (n : ℕ) where
  weights : Fin n → ℝ
  initial_prices : Fin n → ℝ
  expected_returns : Fin n → ℝ
  volatilities : Fin n → ℝ
  correlation_matrix : Matrix (Fin n) (Fin n) ℝ

/-- The error kinds a simulation run can raise. `numericalError` is the spec's
NumericalError: `np.linalg.LinAlgError` out of `np.linalg.cholesky`. -/
inductive SimError where
  | numericalError
deriving DecidableEq

/-- Entries of the lower-triangular Cholesky factor, by the standard
Cholesky-Banachiewicz recursion (what `np.linalg.cholesky` computes when it
succeeds). -/
noncomputable def cholEntry (A : ℕ → ℕ → ℝ) : ℕ → ℕ → ℝ
  | i, j =>
    if h : j < i then
      (A i j - ∑ k in (Finset.range j).attach,
          cholEntry A i k.val * cholEntry A j k.val) / cholEntry A j j
    else if i = j then
      Real.sqrt (A i i - ∑ k in (Finset.range i).attach, cholEntry A i k.val ^ 2)
    else 0
termination_by i j => (i, j)
decreasing_by
  · exact Prod.Lex.right _ (by have := Finset.mem_range.mp k.property; omega)
  · exact Prod.Lex.left _ _ (by omega)
  · exact Prod.Lex.left _ _ (by omega)
  · exact Prod.Lex.right _ (by have := Finset.mem_range.mp k.property; omega)

/-- `L = np.linalg.cholesky(correlation_matrix)` (line 72): succeeds, returning
the lower-triangular factor, exactly when the (symmetric) input is positive
definite; otherwise raises `LinAlgError`, modelled as `none`. -/
noncomputable def cholesky {n : ℕ} (C : Matrix (Fin n) (Fin n) ℝ) :
    Option (Matrix (Fin n) (Fin n) ℝ) :=
  letI := Classical.propDecidable C.PosDef
  if C.PosDef then
    some (Matrix.of fun i j : Fin n =>
      cholEntry (fun a b => if ha : a < n then if hb : b < n then C ⟨a, ha⟩ ⟨b, hb⟩ else 0 else 0)
        i.val j.val)
  else none

/-- `Z_indep = np.random.standard_normal((batch_n_sims, n_steps, n_assets))`
(line 75) at stream offset `o`: the array is filled in C order, so entry
`[b, t, a]` is draw number `o + (b·T + t)·N + a` of the global stream. -/
def Z_indep (stream : ℕ → ℝ) (o nStepsV nAssets : ℕ) (b t a : ℕ) : ℝ :=
  stream (o + ((b * nStepsV + t) * nAssets + a))

/-- `Z_flat = Z_indep.reshape(-1, n_assets)` (line 76): row `r`, column `j` is
draw number `o + r·N + j`. -/
def Z_flat (stream : ℕ → ℝ) (o nAssets : ℕ) (r j : ℕ) : ℝ :=
  stream (o + (r * nAssets + j))

/-- `Z_corr = (Z_flat @ L.T).reshape(batch_n_sims, n_steps, n_assets)`
(line 77): entry `[b, t, a] = Σ_j Z_flat[b·T + t, j] · L[a, j]`. -/
noncomputable def Z_corr {n : ℕ} (L : Matrix (Fin n) (Fin n) ℝ) (stream : ℕ → ℝ)
    (o nStepsV : ℕ) (b t : ℕ) (a : Fin n) : ℝ :=
  ∑ j : Fin n, Z_flat stream o n (b * nStepsV + t) j.val * L a j

/-- `returns[b, t]` for asset `i` (line 87):
`(mu - 0.5*sigma**2)*dt + sigma*np.sqrt(dt)*Z_corr[:, :, i]`. -/
noncomputable def step_return {n : ℕ} (cfg : PortfolioConfig n)
    (L : Matrix (Fin n) (Fin n) ℝ) (T : ℝ) (stream : ℕ → ℝ) (o : ℕ)
    (i : Fin n) (b t : ℕ) : ℝ :=
  (cfg.expected_returns i - 0.5 * cfg.volatilities i ^ 2) * dt
    + cfg.volatilities i * Real.sqrt dt * Z_corr L stream o (num_steps T) b t i

/-- `cumulative_return = np.sum(returns, axis=1)` for asset `i`, path `b`
(line 90). -/
noncomputable def cumulative_return {n : ℕ} (cfg : PortfolioConfig n)
    (L : Matrix (Fin n) (Fin n) ℝ) (T : ℝ) (stream : ℕ → ℝ) (o : ℕ)
    (i : Fin n) (b : ℕ) : ℝ :=
  ∑ t in Finset.range (num_steps T), step_return cfg L T stream o i b t

/-- `final_prices = initial_prices[i] * np.exp(cumulative_return)` (line 91). -/
noncomputable def final_price {n : ℕ} (cfg : PortfolioConfig n)
    (L : Matrix (Fin n) (Fin n) ℝ) (T : ℝ) (stream : ℕ → ℝ) (o : ℕ)
    (i : Fin n) (b : ℕ) : ℝ :=
  cfg.initial_prices i * Real.exp (cumulative_return cfg L T stream o i b)

/-- `portfolio_final_values[b]` after the asset loop (lines 80-94):
starting from zeros, each asset adds `final_prices * weights[i]`. -/
noncomputable def portfolio_final_value {n : ℕ} (cfg : PortfolioConfig n)
    (L : Matrix (Fin n) (Fin n) ℝ) (T : ℝ) (stream : ℕ → ℝ) (o : ℕ)
    (b : ℕ) : ℝ :=
  ∑ i : Fin n, final_price cfg L T stream o i b * cfg.weights i

/-- `simulate_portfolio_batch` (lines 55-96).  Returns the batch's final
values together with the stream offset after the batch (the batch consumes
`batch_n_sims · n_steps · n_assets` draws, at line 75).  The Cholesky
factorisation (line 72) happens before any draw: on failure the offset is
unchanged — no path has been drawn. -/
noncomputable def simulate_portfolio_batch {n : ℕ} (cfg : PortfolioConfig n)
    (T : ℝ) (batch_n_sims : ℕ) (stream : ℕ → ℝ) (o : ℕ) :
    Except SimError (List ℝ) × ℕ :=
  match cholesky cfg.correlation_matrix with
  | none => (Except.error SimError.numericalError, o)
  | some L =>
      (Except.ok ((List.range batch_n_sims).map fun b =>
        portfolio_final_value cfg L T stream o b),
       o + batch_n_sims * (num_steps T * n))

/-- `self.n_batches = int(np.ceil(n_simulations / batch_size))` (line 46),
as a natural number (`= ⌈S/K⌉`, see `n_batches_eq_ceil`). -/
def n_batches (S K : ℕ) : ℕ := (S + K - 1) / K

/-- The batch loop of `run_5M_simulation` (lines 121-142), from batch `idx`
with `fuel` batches left, at stream offset `o`.  Batch `idx` covers
`[idx·K, min(idx·K + K, S))` of the pre-allocated result array
`all_final_values`; writing `batch_final_values` into the slice
`all_final_values[batch_start:batch_end]` is modelled by appending the
batch's list in order.  A raised error aborts the loop. -/
noncomputable def run_batches {n : ℕ} (cfg : PortfolioConfig n) (T : ℝ)
    (S K : ℕ) (stream : ℕ → ℝ) : ℕ → ℕ → ℕ → Except SimError (List ℝ) × ℕ
  | _, 0, o => (Except.ok [], o)
  | idx, fuel + 1, o =>
    let batch_start := idx * K
    let batch_end := min (batch_start + K) S
    match simulate_portfolio_batch cfg T (batch_end - batch_start) stream o with
    | (Except.error e, o') => (Except.error e, o')
    | (Except.ok bv, o') =>
      match run_batches cfg T S K stream (idx + 1) fuel o' with
      | (Except.error e, o'') => (Except.error e, o'')
      | (Except.ok rest, o'') => (Except.ok (bv ++ rest), o'')

/-- `run_5M_simulation` (lines 98-179): runs `n_batches` batches from stream
offset 0 and assembles all final values; the second component is the final
stream offset. -/
noncomputable def run_5M_simulation {n : ℕ} (cfg : PortfolioConfig n) (T : ℝ)
    (S K : ℕ) (stream : ℕ → ℝ) : Except SimError (List ℝ) × ℕ :=
  run_batches cfg T S K stream 0 (n_batches S K) 0

/-- `initial_portfolio_value = np.sum(weights * initial_prices)` (line 115). -/
noncomputable def initial_portfolio_value {n : ℕ} (cfg : PortfolioConfig n) : ℝ :=
  ∑ i : Fin n, cfg.weights i * cfg.initial_prices i

/-- `returns = (all_final_values - initial_portfolio_value) / initial_portfolio_value`
(line 159). -/
noncomputable def run_returns {n : ℕ} (cfg : PortfolioConfig n)
    (values : List ℝ) : List ℝ :=
  values.map fun v => (v - initial_portfolio_value cfg) / initial_portfolio_value cfg

/-- `np.mean` over the reals (total model; only applied to nonempty lists
below). -/
noncomputable def npMeanR (l : List ℝ) : ℝ := l.sum / l.length

/-- `np.std` (population standard deviation):
`sqrt(mean((x - mean(x))**2))`, as used for `metrics['std_return']`. -/
noncomputable def npStdR (l : List ℝ) : ℝ :=
  Real.sqrt (npMeanR (l.map fun x => (x - npMeanR l) ^ 2))

/-- The number of stream draws one path consumes: `n_steps · n_assets`. -/
noncomputable def stride (n : ℕ) (T : ℝ) : ℕ := num_steps T * n

/-- Terminal value of the path whose draws start at stream position `base`:
path `b = 0` of a batch whose tensor starts at offset `base`. -/
noncomputable def path_terminal_value {n : ℕ} (cfg : PortfolioConfig n)
    (L : Matrix (Fin n) (Fin n) ℝ) (T : ℝ) (stream : ℕ → ℝ) (base : ℕ) : ℝ :=
  portfolio_final_value cfg L T stream base 0

/-! ## Helper lemmas about the engine -/

lemma cholesky_of_posDef {n : ℕ} {C : Matrix (Fin n) (Fin n) ℝ} (h : C.PosDef) :
    ∃ L, cholesky C = some L := by
  refine ⟨Matrix.of fun i j : Fin n =>
    cholEntry (fun a b => if ha : a < n then if hb : b < n then C ⟨a, ha⟩ ⟨b, hb⟩ else 0 else 0)
      i.val j.val, ?_⟩
  unfold cholesky
  rw [if_pos h]

lemma cholesky_of_not_posDef {n : ℕ} {C : Matrix (Fin n) (Fin n) ℝ}
    (h : ¬C.PosDef) : cholesky C = none := by
  unfold cholesky
  rw [if_neg h]

/-- The reshape in lines 76-77 preserves the (path, timestep) grouping:
flat row `b·n_steps + t` of `Z_flat` is exactly `Z_indep[b, t, :]`. -/
lemma Z_flat_eq_Z_indep (stream : ℕ → ℝ) (o nStepsV nAssets b t j : ℕ) :
    Z_flat stream o nAssets (b * nStepsV + t) j = Z_indep stream o nStepsV nAssets b t j := rfl

/-- A path's value depends only on where its own draws start in the stream:
path `b` of a batch whose tensor starts at offset `o` equals path `0` of a
(virtual) batch starting at `o + b·stride`. -/
lemma portfolio_final_value_shift {n : ℕ} (cfg : PortfolioConfig n)
    (L : Matrix (Fin n) (Fin n) ℝ) (T : ℝ) (stream : ℕ → ℝ) (o b : ℕ) :
    portfolio_final_value cfg L T stream o b =
      path_terminal_value cfg L T stream (o + b * stride n T) := by
  unfold path_terminal_value portfolio_final_value final_price cumulative_return
    step_return Z_corr Z_flat stride
  refine Finset.sum_congr rfl fun i _ => ?_
  refine congrArg (fun z => cfg.initial_prices i * Real.exp z * cfg.weights i) ?_
  refine Finset.sum_congr rfl fun t _ => ?_
  refine congrArg (fun z =>
    (cfg.expected_returns i - 0.5 * cfg.volatilities i ^ 2) * dt
      + cfg.volatilities i * Real.sqrt dt * z) ?_
  refine Finset.sum_congr rfl fun j _ => ?_
  refine congrArg (fun z => stream z * L i j) ?_
  ring

lemma getD_map_range (f : ℕ → ℝ) (S s : ℕ) (hs : s < S) (d : ℝ) :
    ((List.range S).map f).getD s d = f s := by
  rw [List.getD_eq_getElem?_getD, List.getElem?_map, List.getElem?_range hs]
  rfl

lemma le_n_batches_mul {S K : ℕ} (hK : 1 ≤ K) : S ≤ n_batches S K * K := by
  rcases Nat.eq_zero_or_pos S with rfl | hS
  · exact Nat.zero_le _
  · have hK0 : 0 < K := hK
    unfold n_batches
    rw [show S + K - 1 = (S - 1) + K by omega, Nat.add_div_right _ hK0]
    have h1 : K * ((S - 1) / K) + (S - 1) % K = S - 1 := Nat.div_add_mod _ _
    have h2 : (S - 1) % K < K := Nat.mod_lt _ hK0
    calc S = (S - 1) + 1 := by omega
      _ = K * ((S - 1) / K) + (S - 1) % K + 1 := by rw [h1]
      _ = K * ((S - 1) / K) + ((S - 1) % K + 1) := by rw [Nat.add_assoc]
      _ ≤ K * ((S - 1) / K) + K := Nat.add_le_add_left h2 _
      _ = (S - 1) / K * K + K := by rw [Nat.mul_comm]
      _ = ((S - 1) / K + 1) * K := by rw [Nat.succ_mul]

lemma one_le_n_batches {S K : ℕ} (hS : 1 ≤ S) (hK : 1 ≤ K) : 1 ≤ n_batches S K := by
  unfold n_batches
  rw [Nat.le_div_iff_mul_le hK]
  omega

lemma stride_def {n : ℕ} (T : ℝ) : num_steps T * n = stride n T := rfl

/-- The batch loop, fully unrolled: starting before batch `idx` (with
`min(idx·K, S)` paths already produced and the stream offset accordingly),
`fuel` further batches produce exactly the paths
`[min(idx·K, S), min((idx+fuel)·K, S))`, path `s` reading the stream
segment that starts at `s·stride`. -/
lemma run_batches_ok {n : ℕ} (cfg : PortfolioConfig n) (T : ℝ) (S K : ℕ)
    (stream : ℕ → ℝ) (L : Matrix (Fin n) (Fin n) ℝ)
    (hchol : cholesky cfg.correlation_matrix = some L) :
    ∀ fuel idx,
      run_batches cfg T S K stream idx fuel (stride n T * min (idx * K) S) =
        (Except.ok (((List.range' (min (idx * K) S)
            (min ((idx + fuel) * K) S - min (idx * K) S)).map
          fun s => path_terminal_value cfg L T stream (stride n T * s))),
         stride n T * min ((idx + fuel) * K) S) := by
  intro fuel
  induction fuel with
  | zero =>
    intro idx
    simp [run_batches]
  | succ f ih =>
    intro idx
    have ih' := ih (idx + 1)
    have e1 : (idx + 1 + f) * K = idx * K + (f * K + K) := by ring
    have e2 : (idx + (f + 1)) * K = idx * K + (f * K + K) := by ring
    have e3 : (idx + 1) * K = idx * K + K := by ring
    rw [e1, e3] at ih'
    simp only [run_batches, simulate_portfolio_batch, hchol, stride_def]
    rw [e2]
    by_cases hS : S ≤ idx * K
    · have h1 : min (idx * K) S = S := by omega
      have h2 : min (idx * K + K) S - idx * K = 0 := by omega
      have h4 : min (idx * K + K) S = S := by omega
      rw [h4] at ih'
      rw [h1, h2]
      simp only [List.range_zero, List.map_nil, Nat.zero_mul, Nat.add_zero]
      rw [ih']
      simp only [List.nil_append]
    · push_neg at hS
      have h1 : min (idx * K) S = idx * K := by omega
      have h4 : idx * K + (min (idx * K + K) S - idx * K) = min (idx * K + K) S := by
        omega
      rw [h1]
      have hoff : stride n T * (idx * K)
          + (min (idx * K + K) S - idx * K) * stride n T
          = stride n T * min (idx * K + K) S := by
        rw [Nat.mul_comm (min (idx * K + K) S - idx * K) (stride n T),
          ← Nat.mul_add, h4]
      rw [hoff, ih']
      dsimp only
      have hbv : ((List.range (min (idx * K + K) S - idx * K)).map
            fun b => portfolio_final_value cfg L T stream (stride n T * (idx * K)) b)
          = (List.range' (idx * K) (min (idx * K + K) S - idx * K)).map
            fun s => path_terminal_value cfg L T stream (stride n T * s) := by
        rw [List.range'_eq_map_range, List.map_map]
        refine List.map_congr_left fun b _ => ?_
        rw [portfolio_final_value_shift]
        simp only [Function.comp]
        congr 1
        ring
      rw [hbv, ← List.map_append]
      have happ := List.range'_append (idx * K) (min (idx * K + K) S - idx * K)
        (min (idx * K + (f * K + K)) S - min (idx * K + K) S) 1
      rw [show idx * K + 1 * (min (idx * K + K) S - idx * K) = min (idx * K + K) S
        by omega] at happ
      rw [happ, show min (idx * K + (f * K + K)) S - min (idx * K + K) S
          + (min (idx * K + K) S - idx * K) = min (idx * K + (f * K + K)) S - idx * K
        by omega]

/-- With a successful Cholesky factorisation the run yields one value per
path `s ∈ [0, S)`, path `s` reading the stream from position `s·stride`;
the value list does not depend on the batch size `K` (beyond `K ≥ 1`). -/
lemma run_5M_ok {n : ℕ} (cfg : PortfolioConfig n) (T : ℝ) (S K : ℕ)
    (stream : ℕ → ℝ) (L : Matrix (Fin n) (Fin n) ℝ)
    (hchol : cholesky cfg.correlation_matrix = some L) (hK : 1 ≤ K) :
    run_5M_simulation cfg T S K stream =
      (Except.ok ((List.range S).map
        fun s => path_terminal_value cfg L T stream (stride n T * s)),
       stride n T * S) := by
  unfold run_5M_simulation
  have h := run_batches_ok cfg T S K stream L hchol (n_batches S K) 0
  have h0 : min (0 * K) S = 0 := by omega
  have e : (0 + n_batches S K) * K = n_batches S K * K := by ring
  have h1 : min ((0 + n_batches S K) * K) S = S := by
    have h2 := le_n_batches_mul (S := S) (K := K) hK
    rw [e]
    omega
  rw [h0, h1, Nat.mul_zero, Nat.sub_zero] at h
  rw [List.range_eq_range']
  exact h

/-- A failed Cholesky factorisation aborts the run in the first batch, with
no partial results and no stream consumption. -/
lemma run_5M_err {n : ℕ} (cfg : PortfolioConfig n) (T : ℝ) (S K : ℕ)
    (stream : ℕ → ℝ) (hchol : cholesky cfg.correlation_matrix = none)
    (hS : 1 ≤ S) (hK : 1 ≤ K) :
    run_5M_simulation cfg T S K stream = (Except.error SimError.numericalError, 0) := by
  unfold run_5M_simulation
  obtain ⟨m, hm⟩ : ∃ m, n_batches S K = m + 1 :=
    ⟨n_batches S K - 1, by have := one_le_n_batches hS hK; omega⟩
  rw [hm]
  simp [run_batches, simulate_portfolio_batch, hchol]

/-- With all volatilities zero the diffusion term vanishes and every path has
the same deterministic value `Σᵢ P₀ᵢ·exp(μᵢ·n_steps·dt)·wᵢ`, independent of
the stream and of the path's position. -/
lemma path_terminal_value_sigma_zero {n : ℕ} (cfg : PortfolioConfig n)
    (L : Matrix (Fin n) (Fin n) ℝ) (T : ℝ) (stream : ℕ → ℝ) (base : ℕ)
    (hσ : ∀ i, cfg.volatilities i = 0) :
    path_terminal_value cfg L T stream base =
      ∑ i : Fin n, cfg.initial_prices i
        * Real.exp (cfg.expected_returns i * (num_steps T : ℝ) * dt)
        * cfg.weights i := by
  unfold path_terminal_value portfolio_final_value final_price cumulative_return step_return
  refine Finset.sum_congr rfl fun i _ => ?_
  rw [hσ i]
  have hstep : ∀ t ∈ Finset.range (num_steps T),
      ((cfg.expected_returns i - 0.5 * (0 : ℝ) ^ 2) * dt
        + 0 * Real.sqrt dt * Z_corr L stream base (num_steps T) 0 t i)
      = cfg.expected_returns i * dt := fun t _ => by ring
  rw [Finset.sum_congr rfl hstep, Finset.sum_const, Finset.card_range, nsmul_eq_mul]
  rw [show (num_steps T : ℝ) * (cfg.expected_returns i * dt)
    = cfg.expected_returns i * (num_steps T : ℝ) * dt by ring]

/-- With all drifts and volatilities zero, every path's terminal value is
exactly the initial portfolio value. -/
lemma path_terminal_value_mu_sigma_zero {n : ℕ} (cfg : PortfolioConfig n)
    (L : Matrix (Fin n) (Fin n) ℝ) (T : ℝ) (stream : ℕ → ℝ) (base : ℕ)
    (hμ : ∀ i, cfg.expected_returns i = 0) (hσ : ∀ i, cfg.volatilities i = 0) :
    path_terminal_value cfg L T stream base = initial_portfolio_value cfg := by
  rw [path_terminal_value_sigma_zero cfg L T stream base hσ]
  unfold initial_portfolio_value
  refine Finset.sum_congr rfl fun i _ => ?_
  rw [hμ i, show (0 : ℝ) * (num_steps T : ℝ) * dt = 0 by ring, Real.exp_zero]
  ring

lemma npMeanR_const {l : List ℝ} {c : ℝ} (hne : l ≠ []) (h : ∀ x ∈ l, x = c) :
    npMeanR l = c := by
  unfold npMeanR
  set m := l.length with hmlen
  have hl : l = List.replicate m c := List.eq_replicate_iff.mpr ⟨hmlen.symm, h⟩
  have hm0 : (m : ℝ) ≠ 0 := by
    have := List.length_pos.mpr hne
    exact Nat.cast_ne_zero.mpr (by omega)
  rw [hl, List.sum_replicate, nsmul_eq_mul, mul_div_cancel_left₀ _ hm0]

/-- `np.std` of a constant array is exactly 0. -/
lemma npStdR_const {l : List ℝ} {c : ℝ} (h : ∀ x ∈ l, x = c) : npStdR l = 0 := by
  rcases eq_or_ne l [] with rfl | hne
  · unfold npStdR npMeanR
    simp
  · unfold npStdR
    rw [npMeanR_const hne h]
    have h0 : ∀ y ∈ l.map (fun x => (x - c) ^ 2), y = 0 := by
      intro y hy
      obtain ⟨x, hx, rfl⟩ := List.mem_map.mp hy
      rw [h x hx]
      ring
    have hnem : l.map (fun x => (x - c) ^ 2) ≠ [] := by
      intro hcontra
      exact hne (List.map_eq_nil_iff.mp hcontra)
    rw [npMeanR_const hnem h0, Real.sqrt_zero]

lemma n_batches_eq_succ {S K : ℕ} (hK : 1 ≤ K) (hS : 1 ≤ S) :
    n_batches S K = (S - 1) / K + 1 := by
  unfold n_batches
  rw [show S + K - 1 = (S - 1) + K by omega, Nat.add_div_right _ hK]

lemma n_batches_pred_mul_lt {S K : ℕ} (hK : 1 ≤ K) (hS : 1 ≤ S) :
    (n_batches S K - 1) * K < S := by
  rw [n_batches_eq_succ hK hS]
  simp only [Nat.add_sub_cancel]
  have := Nat.div_mul_le_self (S - 1) K
  omega

/-- `n_batches` is `int(np.ceil(S / K))`: the ceiling of the exact division. -/
lemma n_batches_eq_ceil {S K : ℕ} (hK : 1 ≤ K) :
    (n_batches S K : ℤ) = ⌈(S : ℚ) / (K : ℚ)⌉ := by
  have hK0 : (0 : ℚ) < (K : ℚ) := by exact_mod_cast hK
  symm
  rw [Int.ceil_eq_iff]
  refine ⟨?_, ?_⟩
  · rw [lt_div_iff₀ hK0]
    rcases Nat.eq_zero_or_pos S with rfl | hS
    · have h0 : n_batches 0 K = 0 := by
        unfold n_batches
        exact Nat.div_eq_of_lt (by omega)
      rw [h0]
      push_cast
      nlinarith
    · have h := n_batches_pred_mul_lt hK hS
      have h1 := one_le_n_batches hS hK
      have h2 : ((n_batches S K - 1 : ℕ) : ℚ) = ((n_batches S K : ℕ) : ℚ) - 1 := by
        push_cast [h1]
        ring
      have h3 : ((n_batches S K - 1 : ℕ) : ℚ) * (K : ℚ) < (S : ℚ) := by
        exact_mod_cast h
      rw [h2] at h3
      push_cast
      exact h3
  · rw [div_le_iff₀ hK0]
    have h := le_n_batches_mul (S := S) (K := K) hK
    exact_mod_cast h

/-- A run with `S = 0` runs no batches at all. -/
lemma run_S_zero {n : ℕ} (cfg : PortfolioConfig n) (T : ℝ) (K : ℕ)
    (stream : ℕ → ℝ) (hK : 1 ≤ K) :
    run_5M_simulation cfg T 0 K stream = (Except.ok [], 0) := by
  unfold run_5M_simulation
  have h0 : n_batches 0 K = 0 := by
    unfold n_batches
    exact Nat.div_eq_of_lt (by omega)
  rw [h0]
  simp [run_batches]

/-- The contiguous index ranges of consecutive batches, concatenated,
cover exactly the interval they span. -/
lemma join_ranges_aux {S K : ℕ} (hK : 1 ≤ K) :
    ∀ fuel idx, ((List.range' idx fuel).map
        (fun i => List.range' (i * K) (min (i * K + K) S - i * K))).flatten
      = List.range' (min (idx * K) S) (min ((idx + fuel) * K) S - min (idx * K) S) := by
  intro fuel
  induction fuel with
  | zero =>
    intro idx
    simp
  | succ f ih =>
    intro idx
    rw [List.range'_succ, List.map_cons, List.flatten_cons, ih (idx + 1)]
    have e1 : (idx + 1 + f) * K = idx * K + (f * K + K) := by ring
    have e2 : (idx + (f + 1)) * K = idx * K + (f * K + K) := by ring
    have e3 : (idx + 1) * K = idx * K + K := by ring
    rw [e1, e2, e3]
    by_cases hS : S ≤ idx * K
    · have h1 : min (idx * K) S = S := by omega
      have h2 : min (idx * K + K) S - idx * K = 0 := by omega
      have h4 : min (idx * K + K) S = S := by omega
      have h5 : min (idx * K + (f * K + K)) S = S := by omega
      rw [h1, h2, h4, h5]
      simp
    · push_neg at hS
      have h1 : min (idx * K) S = idx * K := by omega
      rw [h1]
      have happ := List.range'_append (idx * K) (min (idx * K + K) S - idx * K)
        (min (idx * K + (f * K + K)) S - min (idx * K + K) S) 1
      rw [show idx * K + 1 * (min (idx * K + K) S - idx * K) = min (idx * K + K) S
        by omega] at happ
      rw [happ, show min (idx * K + (f * K + K)) S - min (idx * K + K) S
          + (min (idx * K + K) S - idx * K) = min (idx * K + (f * K + K)) S - idx * K
        by omega]

/-- The scheduler's batch ranges partition `[0, S)` in order. -/
lemma join_batch_ranges {S K : ℕ} (hK : 1 ≤ K) :
    ((List.range (n_batches S K)).map
      (fun idx => List.range' (idx * K) (min (idx * K + K) S - idx * K))).flatten
    = List.range S := by
  rw [List.range_eq_range', join_ranges_aux hK (n_batches S K) 0]
  have h0 : min (0 * K) S = 0 := by omega
  have e : (0 + n_batches S K) * K = n_batches S K * K := by ring
  have h1 : min ((0 + n_batches S K) * K) S = S := by
    have h2 := le_n_batches_mul (S := S) (K := K) hK
    rw [e]
    omega
  rw [h0, h1, Nat.sub_zero, List.range_eq_range']

lemma num_steps_051 : num_steps ((51 : ℝ) / 100) = 128 := by
  unfold num_steps
  have h : ⌊(51 : ℝ) / 100 * 252⌋ = 128 := by
    rw [Int.floor_eq_iff]
    constructor <;> norm_num
  rw [h]
  rfl

/-! ## Concrete configurations used to instantiate the claims -/

/-- An arbitrary concrete stream (the claims hold for every stream). -/
def zero_stream : ℕ → ℝ := fun _ => 0

/-- One asset, weight 1, price 100, zero drift and volatility. -/
noncomputable def cfgW1 : PortfolioConfig 1 := ⟨![1], ![100], ![0], ![0], 1⟩

/-- One asset, weight 1, price 1, drift 1, zero volatility. -/
noncomputable def cfgW2 : PortfolioConfig 1 := ⟨![1], ![1], ![1], ![0], 1⟩

/-- One asset whose weight sums to 0.9 ≠ 1: an invalid configuration. -/
noncomputable def cfgW3 : PortfolioConfig 1 := ⟨![9/10], ![1000], ![0], ![0], 1⟩

/-- Three assets with the spec's inconsistent pairwise correlations
0.9, 0.9, −0.9: not positive semi-definite. -/
noncomputable def cfgBad : PortfolioConfig 3 :=
  ⟨![1/3, 1/3, 1/3], ![100, 100, 100], ![1/10, 1/10, 1/10], ![1/4, 1/4, 1/4],
    !![1, 9/10, 9/10; 9/10, 1, -(9/10); 9/10, -(9/10), 1]⟩

lemma cfgW1_posDef : cfgW1.correlation_matrix.PosDef := Matrix.PosDef.one

lemma cfgW2_posDef : cfgW2.correlation_matrix.PosDef := Matrix.PosDef.one

lemma cfgW3_posDef : cfgW3.correlation_matrix.PosDef := Matrix.PosDef.one

/-- The quadratic form at `x = (−1, 1, 1)` is `−2.4 < 0`: the spec's example
correlation matrix is not positive semi-definite. -/
lemma cfgBad_not_posSemidef : ¬ cfgBad.correlation_matrix.PosSemidef := by
  intro h
  have hq := h.2 ![-1, 1, 1]
  simp only [cfgBad, Matrix.dotProduct, Matrix.mulVec, Pi.star_apply, star_trivial,
    Fin.sum_univ_three, Matrix.cons_val_zero, Matrix.cons_val_one, Matrix.head_cons,
    Matrix.cons_val_two, Matrix.tail_cons, Matrix.of_apply, Matrix.cons_val',
    Matrix.head_fin_const, Matrix.empty_val'] at hq
  norm_num at hq

/-! ## The claims -/

/-- Conclusion of claim C1 for one batch: the batch succeeds, the value of
path `b` is `Σᵢ P₀ᵢ · exp(Σₜ per-step log-return) · wᵢ` with per-step
log-return `(μᵢ − ½σᵢ²)·(1/252) + σᵢ·√(1/252)·Z` for that step's correlated
shock `Z`, and the correlated shock of step `(b,t)` is built from the
independent draws of the same `(b,t)` row. -/
def PathTransformerClaim {n : ℕ} (cfg : PortfolioConfig n) (T : ℝ) (B : ℕ)
    (stream : ℕ → ℝ) (o : ℕ) (L : Matrix (Fin n) (Fin n) ℝ) (b : ℕ) : Prop :=
  (∃ vs, (simulate_portfolio_batch cfg T B stream o).1 = Except.ok vs
    ∧ vs.getD b 0 = ∑ i : Fin n,
        cfg.initial_prices i
          * Real.exp (∑ t in Finset.range (num_steps T),
              ((cfg.expected_returns i - 0.5 * cfg.volatilities i ^ 2) * (1 / 252)
                + cfg.volatilities i * Real.sqrt (1 / 252)
                  * Z_corr L stream o (num_steps T) b t i))
          * cfg.weights i)
  ∧ ∀ (t : ℕ) (i : Fin n), Z_corr L stream o (num_steps T) b t i
      = ∑ j : Fin n, Z_indep stream o (num_steps T) n b t j.val * L i j

/-- C1: for every asset, every path and `dt = 1/252`, the transformer computes
the per-step log-return as `(μ − ½σ²)·dt + σ·√dt·Z` for that step's correlated
shock `Z`, the terminal log-return as the sum of the per-step log-returns over
all `n_steps` timesteps, and the terminal price as `P₀·exp(terminal log-return)`;
the portfolio value of the path is the weighted sum of the per-asset terminal
prices. -/
theorem C1_path_transformer {n : ℕ} (cfg : PortfolioConfig n) (T : ℝ) (B : ℕ)
    (stream : ℕ → ℝ) (o : ℕ) (L : Matrix (Fin n) (Fin n) ℝ)
    (hchol : cholesky cfg.correlation_matrix = some L) {b : ℕ} (hb : b < B) :
    PathTransformerClaim cfg T B stream o L b := by
  constructor
  · refine ⟨(List.range B).map fun bb => portfolio_final_value cfg L T stream o bb, ?_, ?_⟩
    · unfold simulate_portfolio_batch
      rw [hchol]
    · rw [getD_map_range _ _ _ hb]
      unfold portfolio_final_value final_price cumulative_return step_return dt
      rfl
  · intro t i
    unfold Z_corr Z_flat Z_indep
    rfl

theorem C1_path_transformer_witness :
    ∃ L, cholesky cfgW1.correlation_matrix = some L
      ∧ PathTransformerClaim cfgW1 1 2 zero_stream 0 L 0 := by
  obtain ⟨L, hL⟩ := cholesky_of_posDef cfgW1_posDef
  exact ⟨L, hL, C1_path_transformer cfgW1 1 2 zero_stream 0 L hL (by norm_num)⟩

/-- Conclusion of claim C3: the number of batches is `⌈S/K⌉`; the batch index
ranges `[idx·K, min(idx·K + K, S))` are contiguous and partition `[0, S)`; the
assembled result is exactly the concatenation of the per-batch slices (each
batch simulating one value per index of its range); and `K > S` gives exactly
one batch of size `S`, not an error. -/
def BatchSchedulerClaim {n : ℕ} (cfg : PortfolioConfig n) (T : ℝ) (S K : ℕ)
    (stream : ℕ → ℝ) : Prop :=
  (n_batches S K : ℤ) = ⌈(S : ℚ) / (K : ℚ)⌉
  ∧ ((List.range (n_batches S K)).map
      (fun idx => List.range' (idx * K) (min (idx * K + K) S - idx * K))).flatten
    = List.range S
  ∧ (∀ L, cholesky cfg.correlation_matrix = some L →
      (run_5M_simulation cfg T S K stream).1
        = Except.ok (((List.range (n_batches S K)).map
            (fun idx => (List.range' (idx * K) (min (idx * K + K) S - idx * K)).map
              fun s => path_terminal_value cfg L T stream (stride n T * s))).flatten))
  ∧ (S < K → n_batches S K = 1 ∧ min (0 * K + K) S - 0 * K = S)

/-- C3: the Batch Scheduler partitions `[0, S)` into `⌈S/K⌉` contiguous
ranges, the last possibly shorter, runs each batch with path count equal to
its range length, and writes each batch's values into the corresponding slice
of the length-S result; when `K > S` it runs exactly one batch of size `S`
with no error. -/
theorem C3_batch_scheduler {n : ℕ} (cfg : PortfolioConfig n) (T : ℝ) (S K : ℕ)
    (stream : ℕ → ℝ) (hS : 1 ≤ S) (hK : 1 ≤ K) :
    BatchSchedulerClaim cfg T S K stream := by
  refine ⟨n_batches_eq_ceil hK, join_batch_ranges hK, ?_, ?_⟩
  · intro L hL
    rw [run_5M_ok cfg T S K stream L hL hK]
    dsimp only
    congr 1
    have hcomp : ((List.range (n_batches S K)).map
        (fun idx => (List.range' (idx * K) (min (idx * K + K) S - idx * K)).map
          fun s => path_terminal_value cfg L T stream (stride n T * s)))
      = (List.range (n_batches S K)).map
          ((List.map fun s => path_terminal_value cfg L T stream (stride n T * s))
            ∘ fun idx => List.range' (idx * K) (min (idx * K + K) S - idx * K)) := rfl
    rw [hcomp, ← List.map_map, ← List.map_flatten, join_batch_ranges hK]
  · intro hKS
    refine ⟨?_, by omega⟩
    rw [n_batches_eq_succ hK hS, Nat.div_eq_of_lt (by omega)]

theorem C3_batch_scheduler_witness : BatchSchedulerClaim cfgW1 1 3 5 zero_stream :=
  C3_batch_scheduler cfgW1 1 3 5 zero_stream (by norm_num) (by norm_num)

/-- C4: with the same seed (the same stream) and configuration, the same total
count `S` run with two different batch sizes yields identical results
element-for-element (indeed, the identical result value). -/
theorem C4_batch_size_invariance {n : ℕ} (cfg : PortfolioConfig n) (T : ℝ)
    (S K1 K2 : ℕ) (stream : ℕ → ℝ) (hK1 : 1 ≤ K1) (hK2 : 1 ≤ K2) :
    (run_5M_simulation cfg T S K1 stream).1 = (run_5M_simulation cfg T S K2 stream).1 := by
  cases hc : cholesky cfg.correlation_matrix with
  | none =>
    rcases Nat.eq_zero_or_pos S with rfl | hS
    · rw [run_S_zero cfg T K1 stream hK1, run_S_zero cfg T K2 stream hK2]
    · rw [run_5M_err cfg T S K1 stream hc hS hK1,
        run_5M_err cfg T S K2 stream hc hS hK2]
  | some L =>
    rw [run_5M_ok cfg T S K1 stream L hc hK1, run_5M_ok cfg T S K2 stream L hc hK2]

theorem C4_batch_size_invariance_witness :
    (run_5M_simulation cfgW1 1 2 1 zero_stream).1
      = (run_5M_simulation cfgW1 1 2 5 zero_stream).1 :=
  C4_batch_size_invariance cfgW1 1 2 1 5 zero_stream (by norm_num) (by norm_num)

/-- Conclusion of claim C5: the initial value uses `Σᵢ wᵢ·P₀ᵢ` and every
path's terminal value and return are exactly the initial value and 0. -/
def WeightConsistencyClaim {n : ℕ} (cfg : PortfolioConfig n) (T : ℝ) (S K : ℕ)
    (stream : ℕ → ℝ) : Prop :=
  initial_portfolio_value cfg = ∑ i : Fin n, cfg.weights i * cfg.initial_prices i
  ∧ ∃ values, (run_5M_simulation cfg T S K stream).1 = Except.ok values
      ∧ ∀ s, s < S →
          values.getD s 0 = initial_portfolio_value cfg
          ∧ (values.getD s 0 - initial_portfolio_value cfg)
              / initial_portfolio_value cfg = 0

/-- C5: with all μ = 0 and all σ = 0, every path's computed return is exactly
0 and its terminal value is exactly the initial portfolio value
`Σᵢ wᵢ·P₀ᵢ` — the same weighting convention at t = 0 and t = T. -/
theorem C5_weight_consistency {n : ℕ} (cfg : PortfolioConfig n) (T : ℝ)
    (S K : ℕ) (stream : ℕ → ℝ)
    (hμ : ∀ i, cfg.expected_returns i = 0) (hσ : ∀ i, cfg.volatilities i = 0)
    (hPD : cfg.correlation_matrix.PosDef) (hK : 1 ≤ K)
    (_hinit : initial_portfolio_value cfg ≠ 0) :
    WeightConsistencyClaim cfg T S K stream := by
  obtain ⟨L, hL⟩ := cholesky_of_posDef hPD
  have hrun := run_5M_ok cfg T S K stream L hL hK
  refine ⟨rfl,
    (List.range S).map fun s => path_terminal_value cfg L T stream (stride n T * s),
    by rw [hrun], ?_⟩
  intro s hs
  rw [getD_map_range _ _ _ hs,
    path_terminal_value_mu_sigma_zero cfg L T stream _ hμ hσ]
  exact ⟨rfl, by rw [sub_self, zero_div]⟩

theorem C5_weight_consistency_witness : WeightConsistencyClaim cfgW1 1 2 3 zero_stream := by
  refine C5_weight_consistency cfgW1 1 2 3 zero_stream
    (fun i => by fin_cases i; rfl) (fun i => by fin_cases i; rfl)
    cfgW1_posDef (by norm_num) ?_
  unfold initial_portfolio_value cfgW1
  rw [Fin.sum_univ_one]
  norm_num

/-- Conclusion of the amended claim C6: every path's value is the same
deterministic weighted aggregate `Σᵢ P₀ᵢ·exp(μᵢ·n_steps·dt)·wᵢ`, and the
standard deviation of the returns is exactly 0. -/
def ZeroVolatilityClaim {n : ℕ} (cfg : PortfolioConfig n) (T : ℝ) (S K : ℕ)
    (stream : ℕ → ℝ) : Prop :=
  ∃ values, (run_5M_simulation cfg T S K stream).1 = Except.ok values
    ∧ (∀ s, s < S → values.getD s 0
        = ∑ i : Fin n, cfg.initial_prices i
            * Real.exp (cfg.expected_returns i * (num_steps T : ℝ) * dt)
            * cfg.weights i)
    ∧ (∀ s s', s < S → s' < S → values.getD s 0 = values.getD s' 0)
    ∧ npStdR (run_returns cfg values) = 0

/-- C6 (amended): with all σ = 0 every path's terminal value is identical with
`std(returns) = 0` exactly, and equals the weighted aggregate of
`P₀·exp(μ·n_steps·dt)` with `n_steps = int(252·T)` — which is
`P₀·exp(μ·T_years)` only when `252·T_years` is an integer (see the
counterexample). -/
theorem C6_zero_volatility_amended {n : ℕ} (cfg : PortfolioConfig n) (T : ℝ)
    (S K : ℕ) (stream : ℕ → ℝ) (hσ : ∀ i, cfg.volatilities i = 0)
    (hPD : cfg.correlation_matrix.PosDef) (hK : 1 ≤ K) :
    ZeroVolatilityClaim cfg T S K stream := by
  obtain ⟨L, hL⟩ := cholesky_of_posDef hPD
  have hrun := run_5M_ok cfg T S K stream L hL hK
  refine ⟨(List.range S).map fun s => path_terminal_value cfg L T stream (stride n T * s),
    by rw [hrun], ?_, ?_, ?_⟩
  · intro s hs
    rw [getD_map_range _ _ _ hs, path_terminal_value_sigma_zero cfg L T stream _ hσ]
  · intro s s' hs hs'
    rw [getD_map_range _ _ _ hs, getD_map_range _ _ _ hs',
      path_terminal_value_sigma_zero cfg L T stream _ hσ,
      path_terminal_value_sigma_zero cfg L T stream _ hσ]
  · apply npStdR_const
      (c := ((∑ i : Fin n, cfg.initial_prices i
          * Real.exp (cfg.expected_returns i * (num_steps T : ℝ) * dt)
          * cfg.weights i) - initial_portfolio_value cfg) / initial_portfolio_value cfg)
    intro x hx
    unfold run_returns at hx
    obtain ⟨v, hv, rfl⟩ := List.mem_map.mp hx
    obtain ⟨s, _, rfl⟩ := List.mem_map.mp hv
    rw [path_terminal_value_sigma_zero cfg L T stream _ hσ]

theorem C6_zero_volatility_witness : ZeroVolatilityClaim cfgW2 1 3 2 zero_stream :=
  C6_zero_volatility_amended cfgW2 1 3 2 zero_stream
    (fun i => by fin_cases i; rfl) cfgW2_posDef (by norm_num)

/-- C6 counterexample: for `T_years = 0.51` (so `int(252·T) = 128`), the
single zero-volatility path's value is `exp(128/252) = exp(32/63)`, while the
claim's `P₀·exp(μ·T_years) = exp(0.51)` differs. -/
theorem C6_zero_volatility_counterexample :
    (run_5M_simulation cfgW2 ((51 : ℝ) / 100) 1 1 zero_stream).1
      = Except.ok [Real.exp ((32 : ℝ) / 63)]
    ∧ Real.exp ((32 : ℝ) / 63)
      ≠ cfgW2.initial_prices 0
          * Real.exp (cfgW2.expected_returns 0 * ((51 : ℝ) / 100)) := by
  constructor
  · obtain ⟨L, hL⟩ := cholesky_of_posDef cfgW2_posDef
    rw [run_5M_ok cfgW2 ((51 : ℝ) / 100) 1 1 zero_stream L hL (by norm_num)]
    dsimp only
    rw [show List.range 1 = [0] from rfl, List.map_cons, List.map_nil]
    rw [path_terminal_value_sigma_zero cfgW2 L _ zero_stream _
      (fun i => by fin_cases i; rfl)]
    rw [num_steps_051, Fin.sum_univ_one]
    have harg : cfgW2.expected_returns 0 * ((128 : ℕ) : ℝ) * dt = (32 : ℝ) / 63 := by
      show (1 : ℝ) * ((128 : ℕ) : ℝ) * dt = (32 : ℝ) / 63
      unfold dt
      norm_num
    rw [harg]
    have hp : cfgW2.initial_prices 0 = 1 := rfl
    have hw : cfgW2.weights 0 = 1 := rfl
    rw [hp, hw, one_mul, mul_one]
  · have h1 : cfgW2.initial_prices 0 = 1 := rfl
    have h2 : cfgW2.expected_returns 0 = 1 := rfl
    rw [h1, h2, one_mul, one_mul, Ne, Real.exp_eq_exp]
    norm_num

/-- C7 (code bug): the run performs no configuration validation at all.  With
a single-asset configuration whose weights sum to 0.9 (off by 0.1, far beyond
the 1e-9 tolerance), the run completes normally and returns a value for every
path — no ConfigurationError exists anywhere in the code. -/
theorem C7_no_weight_validation :
    (∑ i : Fin 1, cfgW3.weights i) = 9 / 10
    ∧ ¬ |(∑ i : Fin 1, cfgW3.weights i) - 1| ≤ 1 / 1000000000
    ∧ (run_5M_simulation cfgW3 1 1 1 zero_stream).1 = Except.ok [(900 : ℝ)] := by
  have h1 : (∑ i : Fin 1, cfgW3.weights i) = (9 : ℝ) / 10 := by
    rw [Fin.sum_univ_one]
    rfl
  refine ⟨h1, ?_, ?_⟩
  · rw [h1, show ((9 : ℝ) / 10) - 1 = -(1 / 10) by norm_num, abs_neg]
    rw [abs_of_nonneg (by norm_num)]
    norm_num
  · obtain ⟨L, hL⟩ := cholesky_of_posDef cfgW3_posDef
    rw [run_5M_ok cfgW3 1 1 1 zero_stream L hL (by norm_num)]
    dsimp only
    rw [show List.range 1 = [0] from rfl, List.map_cons, List.map_nil]
    rw [path_terminal_value_mu_sigma_zero cfgW3 L 1 zero_stream _
      (fun i => by fin_cases i; rfl) (fun i => by fin_cases i; rfl)]
    unfold initial_portfolio_value
    rw [Fin.sum_univ_one]
    have hw : cfgW3.weights 0 = (9 : ℝ) / 10 := rfl
    have hp : cfgW3.initial_prices 0 = 1000 := rfl
    rw [hw, hp]
    norm_num

/-- C8: a correlation matrix that is not positive semi-definite makes the
Cholesky factorisation fail with the NumericalError before any draw is
consumed (the stream offset is returned unchanged), and the whole run aborts
with the error, returning no partial results. -/
theorem C8_numerical_error {n : ℕ} (cfg : PortfolioConfig n) (T : ℝ) (B : ℕ)
    (stream : ℕ → ℝ) (o S K : ℕ)
    (hnot : ¬ cfg.correlation_matrix.PosSemidef) (hS : 1 ≤ S) (hK : 1 ≤ K) :
    cholesky cfg.correlation_matrix = none
    ∧ simulate_portfolio_batch cfg T B stream o
        = (Except.error SimError.numericalError, o)
    ∧ run_5M_simulation cfg T S K stream
        = (Except.error SimError.numericalError, 0) := by
  have hnPD : ¬ cfg.correlation_matrix.PosDef := fun h => hnot h.posSemidef
  have hc := cholesky_of_not_posDef hnPD
  refine ⟨hc, ?_, run_5M_err cfg T S K stream hc hS hK⟩
  unfold simulate_portfolio_batch
  rw [hc]

theorem C8_numerical_error_witness :
    cholesky cfgBad.correlation_matrix = none
    ∧ simulate_portfolio_batch cfgBad 1 7 zero_stream 0
        = (Except.error SimError.numericalError, 0)
    ∧ run_5M_simulation cfgBad 1 5 2 zero_stream
        = (Except.error SimError.numericalError, 0) :=
  C8_numerical_error cfgBad 1 7 zero_stream 0 5 2 cfgBad_not_posSemidef
    (by norm_num) (by norm_num)

/-! ## Claims about the Risk Metrics Engine -/

lemma floor_mul_toNat_lt {p : ℚ} (n : ℕ) (h1 : 1 ≤ n) (hp0 : 0 ≤ p) (hp1 : p < 1) :
    (⌊(n : ℚ) * p⌋).toNat < n := by
  have hn : (1 : ℚ) ≤ (n : ℚ) := by exact_mod_cast h1
  have h2 : (n : ℚ) * p < (n : ℚ) := by nlinarith
  have h3 : ⌊(n : ℚ) * p⌋ < (n : ℤ) := by
    rw [Int.floor_lt]
    exact_mod_cast h2
  have h4 : (0 : ℤ) ≤ ⌊(n : ℚ) * p⌋ := by
    rw [Int.floor_nonneg]
    positivity
  omega

lemma floor_mul_toNat_eq_zero {p : ℚ} (n : ℕ) (hp : 0 ≤ p) (h : (n : ℚ) * p < 1) :
    (⌊(n : ℚ) * p⌋).toNat = 0 := by
  have h0 : ⌊(n : ℚ) * p⌋ = 0 := by
    rw [Int.floor_eq_zero_iff]
    exact Set.mem_Ico.mpr ⟨by positivity, h⟩
  rw [h0]
  rfl

lemma one_le_floor_mul_toNat {p : ℚ} (n : ℕ) (h : 1 ≤ (n : ℚ) * p) :
    1 ≤ (⌊(n : ℚ) * p⌋).toNat := by
  have h1 : (1 : ℤ) ≤ ⌊(n : ℚ) * p⌋ := by
    rw [Int.le_floor]
    exact_mod_cast h
  omega

lemma npMean_nil : npMean [] = none := rfl

lemma npMean_of_ne_nil {l : List ℚ} (h : l ≠ []) : ∃ v, npMean l = some v := by
  unfold npMean
  rw [if_neg (by simpa using h)]
  exact ⟨_, rfl⟩

lemma npMean_take_npSort (returns : List ℚ) (h1 : 1 ≤ returns.length) (k : ℕ)
    (hk : 1 ≤ k) : ∃ v, npMean ((npSort returns).take k) = some v := by
  apply npMean_of_ne_nil
  intro hc
  rcases List.take_eq_nil_iff.mp hc with h0 | h0
  · omega
  · have := List.length_insertionSort (· ≤ ·) returns
    rw [show npSort returns = List.insertionSort (· ≤ ·) returns from rfl] at h0
    rw [h0] at this
    simp at this
    omega

/-- The nearest-rank convention of `_calculate_metrics`: each reported
percentile is `sorted[int(n·p)]` with no interpolation, the VaR levels are the
corresponding percentiles, and each CVaR is the mean of the initial slice
`sorted[0 : int(n·p)]` — the worst p-fraction of outcomes. -/
def NearestRankSpec (returns : List ℚ) (m : MCMetrics) : Prop :=
  m.percentile_1 = (npSort returns).getD (⌊(returns.length : ℚ) * 0.01⌋).toNat 0
  ∧ m.percentile_5 = (npSort returns).getD (⌊(returns.length : ℚ) * 0.05⌋).toNat 0
  ∧ m.percentile_25 = (npSort returns).getD (⌊(returns.length : ℚ) * 0.25⌋).toNat 0
  ∧ m.percentile_75 = (npSort returns).getD (⌊(returns.length : ℚ) * 0.75⌋).toNat 0
  ∧ m.percentile_95 = (npSort returns).getD (⌊(returns.length : ℚ) * 0.95⌋).toNat 0
  ∧ m.percentile_99 = (npSort returns).getD (⌊(returns.length : ℚ) * 0.99⌋).toNat 0
  ∧ m.VaR_95 = m.percentile_5
  ∧ m.VaR_99 = m.percentile_1
  ∧ m.VaR_999 = (npSort returns).getD (⌊(returns.length : ℚ) * 0.001⌋).toNat 0
  ∧ m.CVaR_95 = npMean ((npSort returns).take (⌊(returns.length : ℚ) * 0.05⌋).toNat)
  ∧ m.CVaR_99 = npMean ((npSort returns).take (⌊(returns.length : ℚ) * 0.01⌋).toNat)
  ∧ m.CVaR_999 = npMean ((npSort returns).take (⌊(returns.length : ℚ) * 0.001⌋).toNat)

/-- Conclusion of claim C2: the metrics are computed from a sorted permutation
of the input, all nearest-rank indices are in bounds, and the order-statistic
fields satisfy the nearest-rank specification. -/
def MetricsClaim (returns : List ℚ) : Prop :=
  ∃ m, calculate_metrics returns = some m
    ∧ List.Sorted (· ≤ ·) (npSort returns)
    ∧ (npSort returns).Perm returns
    ∧ (∀ p ∈ ([0.001, 0.01, 0.05, 0.25, 0.75, 0.95, 0.99] : List ℚ),
        (⌊(returns.length : ℚ) * p⌋).toNat < returns.length)
    ∧ NearestRankSpec returns m

/-- C2: for every returns array of length n ≥ 1, `_calculate_metrics` computes
each reported percentile as `sorted[int(n·p)]` (nearest-rank, no
interpolation), `VaR(p) = percentile(p)` for p ∈ {0.05, 0.01, 0.001}, and
`CVaR(p)` as the mean of `sorted[0 : int(n·p)]`, the worst p-fraction. -/
theorem C2_metrics_nearest_rank (returns : List ℚ) (h : 1 ≤ returns.length) :
    MetricsClaim returns := by
  have hne : ¬ returns.isEmpty = true := by
    cases returns with
    | nil => simp at h
    | cons a l => simp
  obtain ⟨m, hm⟩ : ∃ m, calculate_metrics returns = some m := by
    unfold calculate_metrics
    rw [if_neg hne]
    exact ⟨_, rfl⟩
  have hm' := hm
  unfold calculate_metrics at hm'
  rw [if_neg hne] at hm'
  dsimp only at hm'
  injection hm' with hrec
  refine ⟨m, hm, List.sorted_insertionSort _ _, List.perm_insertionSort _ _, ?_, ?_⟩
  · intro p hp
    fin_cases hp <;>
      exact floor_mul_toNat_lt returns.length h (by norm_num) (by norm_num)
  · subst hrec
    exact ⟨rfl, rfl, rfl, rfl, rfl, rfl, rfl, rfl, rfl, rfl, rfl, rfl⟩

theorem C2_metrics_nearest_rank_witness :
    1 ≤ ([3, 1, 2] : List ℚ).length ∧ MetricsClaim [3, 1, 2] :=
  ⟨by decide, C2_metrics_nearest_rank [3, 1, 2] (by decide)⟩

lemma calculate_metrics_CVaR_95 (returns : List ℚ) (h : ¬ returns.isEmpty = true) :
    Option.map MCMetrics.CVaR_95 (calculate_metrics returns)
      = some (npMean ((npSort returns).take (⌊(returns.length : ℚ) * 0.05⌋).toNat)) := by
  unfold calculate_metrics
  rw [if_neg h]
  rfl

lemma calculate_metrics_CVaR_99 (returns : List ℚ) (h : ¬ returns.isEmpty = true) :
    Option.map MCMetrics.CVaR_99 (calculate_metrics returns)
      = some (npMean ((npSort returns).take (⌊(returns.length : ℚ) * 0.01⌋).toNat)) := by
  unfold calculate_metrics
  rw [if_neg h]
  rfl

lemma calculate_metrics_CVaR_999 (returns : List ℚ) (h : ¬ returns.isEmpty = true) :
    Option.map MCMetrics.CVaR_999 (calculate_metrics returns)
      = some (npMean ((npSort returns).take (⌊(returns.length : ℚ) * 0.001⌋).toNat)) := by
  unfold calculate_metrics
  rw [if_neg h]
  rfl

/-- Conclusion of claim C10: each CVaR field is NaN (`none`, the mean of an
empty slice) exactly on the short inputs where `int(n·p) = 0`, and is a real
number under the precondition `n ≥ 1/p`. -/
def CVaRPreconditionClaim (returns : List ℚ) : Prop :=
  ((returns.length < 20 →
      Option.map MCMetrics.CVaR_95 (calculate_metrics returns) = some none)
    ∧ (20 ≤ returns.length →
      ∃ v, Option.map MCMetrics.CVaR_95 (calculate_metrics returns) = some (some v)))
  ∧ ((returns.length < 100 →
      Option.map MCMetrics.CVaR_99 (calculate_metrics returns) = some none)
    ∧ (100 ≤ returns.length →
      ∃ v, Option.map MCMetrics.CVaR_99 (calculate_metrics returns) = some (some v)))
  ∧ ((returns.length < 1000 →
      Option.map MCMetrics.CVaR_999 (calculate_metrics returns) = some none)
    ∧ (1000 ≤ returns.length →
      ∃ v, Option.map MCMetrics.CVaR_999 (calculate_metrics returns) = some (some v)))

/-- C10: whenever `int(n·p) = 0` for a tail fraction p ∈ {0.05, 0.01, 0.001}
(i.e. n < 1/p, e.g. every n < 1000 for p = 0.001), the corresponding CVaR is
the mean of an empty slice — NaN, not a real number; it is a well-defined
real number exactly under the precondition n ≥ 1/p. -/
theorem C10_cvar_precondition (returns : List ℚ) (h : 1 ≤ returns.length) :
    CVaRPreconditionClaim returns := by
  have hne : ¬ returns.isEmpty = true := by
    cases returns with
    | nil => simp at h
    | cons a l => simp
  refine ⟨⟨?_, ?_⟩, ⟨?_, ?_⟩, ⟨?_, ?_⟩⟩
  · intro hlt
    rw [calculate_metrics_CVaR_95 returns hne]
    refine congrArg some ?_
    rw [floor_mul_toNat_eq_zero returns.length (by norm_num)
      (by
        have hc : (returns.length : ℚ) < 20 := by exact_mod_cast hlt
        nlinarith)]
    simp [npMean_nil]
  · intro hge
    have hk := one_le_floor_mul_toNat (p := (0.05 : ℚ)) returns.length
      (by
        have hc : (20 : ℚ) ≤ (returns.length : ℚ) := by exact_mod_cast hge
        nlinarith)
    obtain ⟨v, hv⟩ := npMean_take_npSort returns h _ hk
    exact ⟨v, by rw [calculate_metrics_CVaR_95 returns hne, hv]⟩
  · intro hlt
    rw [calculate_metrics_CVaR_99 returns hne]
    refine congrArg some ?_
    rw [floor_mul_toNat_eq_zero returns.length (by norm_num)
      (by
        have hc : (returns.length : ℚ) < 100 := by exact_mod_cast hlt
        nlinarith)]
    simp [npMean_nil]
  · intro hge
    have hk := one_le_floor_mul_toNat (p := (0.01 : ℚ)) returns.length
      (by
        have hc : (100 : ℚ) ≤ (returns.length : ℚ) := by exact_mod_cast hge
        nlinarith)
    obtain ⟨v, hv⟩ := npMean_take_npSort returns h _ hk
    exact ⟨v, by rw [calculate_metrics_CVaR_99 returns hne, hv]⟩
  · intro hlt
    rw [calculate_metrics_CVaR_999 returns hne]
    refine congrArg some ?_
    rw [floor_mul_toNat_eq_zero returns.length (by norm_num)
      (by
        have hc : (returns.length : ℚ) < 1000 := by exact_mod_cast hlt
        nlinarith)]
    simp [npMean_nil]
  · intro hge
    have hk := one_le_floor_mul_toNat (p := (0.001 : ℚ)) returns.length
      (by
        have hc : (1000 : ℚ) ≤ (returns.length : ℚ) := by exact_mod_cast hge
        nlinarith)
    obtain ⟨v, hv⟩ := npMean_take_npSort returns h _ hk
    exact ⟨v, by rw [calculate_metrics_CVaR_999 returns hne, hv]⟩

theorem C10_cvar_precondition_witness :
    1 ≤ ([1, 2] : List ℚ).length ∧ CVaRPreconditionClaim [1, 2] :=
  ⟨by decide, C10_cvar_precondition [1, 2] (by decide)⟩

/-- C9 (amended): `export_results` recomputes each exported percentile from
the same returns vector with numpy's default linear-interpolation rule
(`np.percentile`), for every percentile level appearing in both the export
table and the Metrics Record. -/
theorem C9_export_recomputes_linear (returns : List ℚ) :
    ∀ p ∈ ([1, 5, 25, 75, 95, 99] : List ℚ),
      (export_percentiles returns).lookup p = some (npPercentile returns p) := by
  intro p hp
  fin_cases hp <;> rfl

theorem C9_export_recomputes_linear_witness :
    (export_percentiles [(0 : ℚ), 1]).lookup 5 = some (npPercentile [(0 : ℚ), 1] 5) :=
  C9_export_recomputes_linear [(0 : ℚ), 1] 5 (by decide)

lemma rat_floor_eq (q : ℚ) (z : ℤ) (h1 : (z : ℚ) ≤ q) (h2 : q < z + 1) : ⌊q⌋ = z :=
  Int.floor_eq_iff.mpr ⟨h1, h2⟩

lemma npPercentile_eval (a : List ℚ) (q : ℚ) (k : ℤ)
    (hne : ¬ a.isEmpty = true)
    (hfloor : ⌊((a.length : ℚ) - 1) * q / 100⌋ = k) :
    npPercentile a q = some ((npSort a).getD k.toNat 0
      + (((a.length : ℚ) - 1) * q / 100 - (k.toNat : ℚ))
        * ((npSort a).getD (min (k.toNat + 1) (a.length - 1)) 0
          - (npSort a).getD k.toNat 0)) := by
  unfold npPercentile
  rw [if_neg hne]
  dsimp only
  rw [hfloor]

lemma calculate_metrics_percentile_75 (returns : List ℚ)
    (hne : ¬ returns.isEmpty = true) :
    Option.map MCMetrics.percentile_75 (calculate_metrics returns)
      = some ((npSort returns).getD (⌊(returns.length : ℚ) * 0.75⌋).toNat 0) := by
  unfold calculate_metrics
  rw [if_neg hne]
  rfl

lemma npSort_01 : npSort [(0 : ℚ), 1] = [0, 1] := by
  norm_num [npSort, List.insertionSort, List.orderedInsert]

/-- C9 counterexample: on the returns array `[0, 1]` the percentile level 75
appears in both tables; the export recomputes it by linear interpolation to
`0.75`, while the Metrics Record's nearest-rank value is `1`. -/
theorem C9_export_counterexample :
    (export_percentiles [(0 : ℚ), 1]).lookup 75 = some (npPercentile [(0 : ℚ), 1] 75)
    ∧ npPercentile [(0 : ℚ), 1] 75 = some (3 / 4)
    ∧ Option.map MCMetrics.percentile_75 (calculate_metrics [(0 : ℚ), 1]) = some 1
    ∧ ((3 : ℚ) / 4) ≠ 1 := by
  refine ⟨rfl, ?_, ?_, by norm_num⟩
  · have hfloor : ⌊((([(0 : ℚ), 1].length : ℕ) : ℚ) - 1) * 75 / 100⌋ = (0 : ℤ) := by
      rw [show ((([(0 : ℚ), 1].length : ℕ) : ℚ) - 1) * 75 / 100 = 3 / 4 by norm_num]
      exact rat_floor_eq _ 0 (by norm_num) (by norm_num)
    rw [npPercentile_eval [(0 : ℚ), 1] 75 0 (by decide) hfloor, npSort_01]
    norm_num
  · rw [calculate_metrics_percentile_75 [(0 : ℚ), 1] (by decide)]
    have hfloor : ⌊(([(0 : ℚ), 1].length : ℚ)) * 0.75⌋ = (1 : ℤ) := by
      rw [show (([(0 : ℚ), 1].length : ℚ)) * 0.75 = 3 / 2 by norm_num]
      exact rat_floor_eq _ 1 (by norm_num) (by norm_num)
    rw [hfloor, npSort_01]
    rfl

end SGCapital
